import Mathlib

/-!
Verification of the MIPS simulator core (sparse memory, single-cycle CPU,
two-pass assembler) against its natural-language specification.

The definitions below are a shallow embedding of the TypeScript sources:

  * `Memory` and its operations embed the `Memory` class (`memory.ts`):
    a sparse array of 65536-byte `Uint8Array` chunks indexed by the top
    16 bits of the address.
  * `CPU.step` embeds the `CPU.step` method (`cpu.ts`): fetch, decode,
    the opcode/funct switch, the delay-slot block and the PC-alignment
    fix-up, returning the exception bitmask together with the new state.
  * The tokenizer, register tables, instruction table and the pass-2
    branch resolution embed `assembler.ts` and `assembly.constant.ts`
    of the `mips-simulator` package.

JavaScript numbers are modelled as `Int` (all values arising here are
integers); the 32-bit coercions `ToUint32` / `ToInt32` that JavaScript
applies inside `Uint32Array` assignments and bitwise operators are made
explicit through `toUint32` / `toInt32`.
-/

/-- toUint32 models the JavaScript ToUint32 conversion on integral numbers:
the value modulo 2^32, as a natural number. -/
def toUint32 (x : Int) : Nat := (x % 4294967296).toNat

/-- toInt32 models the JavaScript ToInt32 conversion on integral numbers:
the value modulo 2^32, reinterpreted as a signed 32-bit integer. -/
def toInt32 (x : Int) : Int :=
  let u := x % 4294967296
  if u < 2147483648 then u else u - 4294967296

/-- jsShl32 models the JavaScript operator `x << k` (for a shift amount
already reduced below 32): shift the ToInt32 image left and wrap to a
signed 32-bit result. -/
def jsShl32 (x : Int) (k : Nat) : Int := toInt32 (Int.ofNat (toUint32 x <<< k))

/-- sar32 models the JavaScript operator `x >> k` (arithmetic shift right
of the ToInt32 image; for a non-negative shift count this is flooring
division by 2^k). -/
def sar32 (x : Int) (k : Nat) : Int :=
  match toInt32 x with
  | Int.ofNat n => Int.ofNat (n >>> k)
  | Int.negSucc n => Int.negSucc (n >>> k)

/-- CHUNK_SIZE from memory.ts: size of one memory page in bytes. -/
def CHUNK_SIZE : Nat := 65536

/-- CHUNK_MASK from memory.ts. -/
def CHUNK_MASK : Nat := CHUNK_SIZE - 1

/-- CHUNK_WIDTH from memory.ts. -/
def CHUNK_WIDTH : Nat := 16

/-- Chunk models one `Uint8Array(CHUNK_SIZE)`: a total function from
offsets to byte values, zero everywhere until written. -/
def Chunk : Type := Nat → Nat

/-- Chunk.read models `chunk[i]` as used by the word/half/byte getters:
an in-bounds read yields the stored byte, and an out-of-bounds typed-array
read yields `undefined`, which the callers' bit arithmetic coerces to 0. -/
def Chunk.read (c : Chunk) (i : Nat) : Nat := if i < CHUNK_SIZE then c i else 0

/-- Chunk.write models `chunk[i] = v`: an out-of-bounds typed-array store
is silently dropped, and an in-bounds store keeps only the low byte
(Uint8Array applies ToUint8). -/
def Chunk.write (c : Chunk) (i v : Nat) : Chunk :=
  if i < CHUNK_SIZE then fun j => if j = i then v % 256 else c j else c

/-- Memory embeds the `Memory` class: the sparse `chunks` array, with
`none` for a hole (a chunk that was never allocated). -/
structure Memory where
  chunks : Nat → Option Chunk

/-- Memory.empty is the state of a freshly constructed `Memory`. -/
def Memory.empty : Memory := ⟨fun _ => none⟩

/-- pageIndex is the chunk index of an address: `addr >>> CHUNK_WIDTH`. -/
def pageIndex (addr : Int) : Nat := toUint32 addr >>> CHUNK_WIDTH

/-- pageOffset is the offset of an address inside its chunk:
`addr & CHUNK_MASK`. -/
def pageOffset (addr : Int) : Nat := toUint32 addr &&& CHUNK_MASK

/-- Memory.getChunk embeds `Memory.getChunk`: return the chunk holding
`addr`, allocating a zeroed chunk first if the slot is empty.  The
returned memory reflects the mutation of `this.chunks`. -/
def Memory.getChunk (m : Memory) (addr : Int) : Chunk × Memory :=
  let chunkIndex := pageIndex addr
  match m.chunks chunkIndex with
  | some c => (c, m)
  | none =>
    let c : Chunk := fun _ => 0
    (c, ⟨fun j => if j = chunkIndex then some c else m.chunks j⟩)

/-- Memory.setChunkAt stores a chunk back into the sparse array (the
effect of mutating the `Uint8Array` obtained from `getChunk`). -/
def Memory.setChunkAt (m : Memory) (idx : Nat) (c : Chunk) : Memory :=
  ⟨fun j => if j = idx then some c else m.chunks j⟩

/-- Memory.getWord embeds `Memory.getWord`: fetch the chunk, mask the
address, and combine four consecutive bytes big-endian.  The source
computes the combination with signed 32-bit `<<`/`|` and then adds
4294967296 when the result is negative; because every byte is below 256
the natural-number shift/or below produces exactly that normalised
unsigned value. -/
def Memory.getWord (m : Memory) (addr : Int) : Nat × Memory :=
  let p := m.getChunk addr
  let chunk := p.1
  let a := pageOffset addr
  (chunk.read a <<< 24 ||| chunk.read (a + 1) <<< 16 |||
     chunk.read (a + 2) <<< 8 ||| chunk.read (a + 3), p.2)

/-- Memory.setWord embeds `Memory.setWord`: fetch the chunk, mask the
address and store the four bytes `(val & 0xff000000) >>> 24` down to
`val & 0xff` at consecutive offsets of that single chunk. -/
def Memory.setWord (m : Memory) (addr : Int) (val : Int) : Memory :=
  let p := m.getChunk addr
  let a := pageOffset addr
  let u := toUint32 val
  let c := (((p.1.write a (u >>> 24)).write (a + 1) (u >>> 16 % 256)).write
      (a + 2) (u >>> 8 % 256)).write (a + 3) (u % 256)
  p.2.setChunkAt (pageIndex addr) c

/-- Memory.peek is a pure observation of the byte stored at an address
(0 for a never-allocated page).  It returns the value `getByte` would,
without the allocation side effect; it is used only to state theorems. -/
def Memory.peek (m : Memory) (addr : Int) : Nat :=
  match m.chunks (pageIndex addr) with
  | some c => c.read (pageOffset addr)
  | none => 0

namespace ExceptionCode

/-- NONE from the ExceptionCode enum. -/
def NONE : Nat := 0

/-- INVALID_INST from the ExceptionCode enum. -/
def INVALID_INST : Nat := 1

/-- INT_OVERFLOW from the ExceptionCode enum. -/
def INT_OVERFLOW : Nat := 2

/-- PC_ALIGN from the ExceptionCode enum. -/
def PC_ALIGN : Nat := 4

/-- DATA_ALIGN from the ExceptionCode enum. -/
def DATA_ALIGN : Nat := 8

/-- BRANCH_IN_DELAY_SLOT from the ExceptionCode enum. -/
def BRANCH_IN_DELAY_SLOT : Nat := 16

/-- BREAK from the ExceptionCode enum. -/
def BREAK : Nat := 32

/-- PC_LIMIT from the ExceptionCode enum. -/
def PC_LIMIT : Nat := 64

/-- SYSCALL from the ExceptionCode enum. -/
def SYSCALL : Nat := 128

end ExceptionCode

/-- Regs models the `registerFile : Uint32Array(32)`. -/
def Regs : Type := Nat → Nat

/-- regWrite models `r[i] = v`: a `Uint32Array` element assignment
applies ToUint32 to the stored value. -/
def regWrite (r : Regs) (i : Nat) (v : Int) : Regs :=
  fun j => if j = i then toUint32 v else r j

/-- CPUState gathers the architectural state of the `CPU` class that
`step` reads and writes.  `branchTarget` is declared in the source and
checked at the end of `step` but never assigned anywhere, so it is
`none` in every reachable state. -/
structure CPUState where
  pc : Int
  registerFile : Regs
  cycle : Nat
  halted : Bool
  branchTarget : Option Int
  mem : Memory

namespace Inst

/-- opcode field of an instruction word: `(inst & 0xfc000000) >>> 26`. -/
def opcode (inst : Nat) : Nat := (inst &&& 0xfc000000) >>> 26

/-- funct field: `inst & 0x3f`. -/
def funct (inst : Nat) : Nat := inst &&& 0x3f

/-- rs field: `(inst & 0x03e00000) >>> 21`. -/
def rs (inst : Nat) : Nat := (inst &&& 0x03e00000) >>> 21

/-- rt field: `(inst & 0x001f0000) >>> 16`. -/
def rt (inst : Nat) : Nat := (inst &&& 0x001f0000) >>> 16

/-- rd field: `(inst & 0x0000f800) >>> 11`. -/
def rd (inst : Nat) : Nat := (inst &&& 0x0000f800) >>> 11

/-- shamt field: `(inst & 0x000007c0) >>> 6`. -/
def shamt (inst : Nat) : Nat := (inst &&& 0x000007c0) >>> 6

/-- imm field: `inst & 0xffff`. -/
def imm (inst : Nat) : Nat := inst &&& 0xffff

/-- imms is the sign-extended immediate:
`imm & 0x8000 ? imm | 0xffff0000 : imm`, where the `|` produces a signed
32-bit (negative) value. -/
def imms (inst : Nat) : Int :=
  if imm inst &&& 0x8000 ≠ 0 then toInt32 (Int.ofNat (imm inst ||| 0xffff0000))
  else Int.ofNat (imm inst)

end Inst

/-- ExecOut is the outcome of the opcode/funct switch inside `CPU.step`:
the updated register file and memory, the computed `nextPC` and exception
bits, and whether the `syscall` early return was taken. -/
structure ExecOut where
  regs : Regs
  mem : Memory
  nextPC : Int
  exc : Nat
  early : Bool

/-- execInst embeds the `switch (opcode)` body of `CPU.step`.  `r` is the
register file after the entry `r[0] = 0`, `mem` the memory after the
fetch, `pc` the current program counter and `inst` the fetched word.
The source also sets a local `hasDelaySlot` flag in the jump and branch
cases; it is never read afterwards, so it is not modelled. -/
def execInst (r : Regs) (mem : Memory) (pc : Int) (inst : Nat) : ExecOut :=
  let opcode := Inst.opcode inst
  let func := Inst.funct inst
  let rs := Inst.rs inst
  let rt := Inst.rt inst
  let rd := Inst.rd inst
  let shamt := Inst.shamt inst
  let imm := Inst.imm inst
  let imms := Inst.imms inst
  let nextPC : Int := pc + 4
  if opcode = 0 then
    -- R-type instructions
    if func = 0 then -- sll rd, rt, sa
      ⟨regWrite r rd (jsShl32 (Int.ofNat (r rt)) shamt), mem, nextPC, 0, false⟩
    else if func = 2 then -- srl rd, rt, sa
      ⟨regWrite r rd (Int.ofNat (r rt >>> shamt)), mem, nextPC, 0, false⟩
    else if func = 3 then -- sra rd, rt, sa
      ⟨regWrite r rd (sar32 (Int.ofNat (r rt)) shamt), mem, nextPC, 0, false⟩
    else if func = 4 then -- sllv rd, rt, rs
      ⟨regWrite r rd (jsShl32 (Int.ofNat (r rt)) (r rs &&& 0x1f)), mem, nextPC, 0, false⟩
    else if func = 6 then -- srlv rd, rt, rs
      ⟨regWrite r rd (Int.ofNat (r rt >>> (r rs &&& 0x1f))), mem, nextPC, 0, false⟩
    else if func = 7 then -- srav rd, rt, rs
      ⟨regWrite r rd (sar32 (Int.ofNat (r rt)) (r rs &&& 0x1f)), mem, nextPC, 0, false⟩
    else if func = 8 then -- jr rs
      ⟨r, mem, Int.ofNat (r rs), 0, false⟩
    else if func = 12 then -- syscall: halt and return immediately
      ⟨r, mem, nextPC, 0, true⟩
    else if func = 13 then -- break
      ⟨r, mem, nextPC, ExceptionCode.BREAK, false⟩
    else if func = 32 then -- add rd, rs, rt (with overflow check)
      let tmp := toInt32 (Int.ofNat (r rs)) + toInt32 (Int.ofNat (r rt))
      let exc := if tmp > 0x7fffffff ∨ tmp < -0x80000000 then ExceptionCode.INT_OVERFLOW else 0
      ⟨regWrite r rd tmp, mem, nextPC, exc, false⟩
    else if func = 33 then -- addu rd, rs, rt
      ⟨regWrite r rd (Int.ofNat (r rs) + Int.ofNat (r rt)), mem, nextPC, 0, false⟩
    else if func = 34 then -- sub rd, rs, rt (with overflow check)
      let tmp := toInt32 (Int.ofNat (r rs)) - toInt32 (Int.ofNat (r rt))
      let exc := if tmp > 0x7fffffff ∨ tmp < -0x80000000 then ExceptionCode.INT_OVERFLOW else 0
      ⟨regWrite r rd tmp, mem, nextPC, exc, false⟩
    else if func = 35 then -- subu rd, rs, rt
      ⟨regWrite r rd (Int.ofNat (r rs) - Int.ofNat (r rt)), mem, nextPC, 0, false⟩
    else if func = 36 then -- and rd, rs, rt
      ⟨regWrite r rd (Int.ofNat (r rs &&& r rt)), mem, nextPC, 0, false⟩
    else if func = 37 then -- or rd, rs, rt
      ⟨regWrite r rd (Int.ofNat (r rs ||| r rt)), mem, nextPC, 0, false⟩
    else if func = 38 then -- xor rd, rs, rt
      ⟨regWrite r rd (Int.ofNat (r rs ^^^ r rt)), mem, nextPC, 0, false⟩
    else if func = 39 then -- nor rd, rs, rt: `~(a | b)` on 32 bits
      ⟨regWrite r rd (Int.ofNat (0xffffffff ^^^ (r rs ||| r rt))), mem, nextPC, 0, false⟩
    else if func = 42 then -- slt rd, rs, rt (signed compare)
      ⟨regWrite r rd (if toInt32 (Int.ofNat (r rs)) < toInt32 (Int.ofNat (r rt)) then 1 else 0),
        mem, nextPC, 0, false⟩
    else if func = 43 then -- sltu rd, rs, rt
      ⟨regWrite r rd (if r rs < r rt then 1 else 0), mem, nextPC, 0, false⟩
    else
      ⟨r, mem, nextPC, ExceptionCode.INVALID_INST, false⟩
  else if opcode = 2 then -- j target
    -- tmp = (pc & 0xf0000000) | ((inst & 0x03ffffff) << 2); the source
    -- then adds 4294967296 when the signed result is negative, i.e. it
    -- stores the unsigned 32-bit value computed below.
    ⟨r, mem, Int.ofNat (toUint32 pc &&& 0xf0000000 ||| (inst &&& 0x03ffffff) <<< 2),
      0, false⟩
  else if opcode = 3 then -- jal target (r[31] receives pc + 4)
    ⟨regWrite r 31 nextPC, mem,
      Int.ofNat (toUint32 pc &&& 0xf0000000 ||| (inst &&& 0x03ffffff) <<< 2), 0, false⟩
  else if opcode = 4 then -- beq rs, rt, offset
    if r rs = r rt then ⟨r, mem, pc + jsShl32 imms 2, 0, false⟩
    else ⟨r, mem, nextPC, 0, false⟩
  else if opcode = 8 then -- addi rt, rs, imm (with overflow check)
    let tmp := toInt32 (Int.ofNat (r rs)) + imms
    let exc := if tmp > 0x7fffffff ∨ tmp < -0x80000000 then ExceptionCode.INT_OVERFLOW else 0
    ⟨regWrite r rt tmp, mem, nextPC, exc, false⟩
  else if opcode = 9 then -- addiu rt, rs, imm
    ⟨regWrite r rt (Int.ofNat (r rs) + imms), mem, nextPC, 0, false⟩
  else if opcode = 12 then -- andi rt, rs, imm (zero-extended immediate)
    ⟨regWrite r rt (Int.ofNat (r rs &&& imm)), mem, nextPC, 0, false⟩
  else if opcode = 13 then -- ori rt, rs, imm
    ⟨regWrite r rt (Int.ofNat (r rs ||| imm)), mem, nextPC, 0, false⟩
  else if opcode = 14 then -- xori rt, rs, imm
    ⟨regWrite r rt (Int.ofNat (r rs ^^^ imm)), mem, nextPC, 0, false⟩
  else if opcode = 15 then -- lui rt, imm
    ⟨regWrite r rt (jsShl32 (Int.ofNat imm) 16), mem, nextPC, 0, false⟩
  else if opcode = 35 then -- lw rt, offset(rs)
    let tmp := Int.ofNat (r rs) + imms
    if tmp % 4 ≠ 0 then -- tmp & 0x3
      ⟨r, mem, nextPC, ExceptionCode.DATA_ALIGN, false⟩
    else
      let p := mem.getWord tmp
      ⟨regWrite r rt (Int.ofNat p.1), p.2, nextPC, 0, false⟩
  else if opcode = 43 then -- sw rt, offset(rs)
    let tmp := Int.ofNat (r rs) + imms
    if tmp % 4 ≠ 0 then -- tmp & 0x3
      ⟨r, mem, nextPC, ExceptionCode.DATA_ALIGN, false⟩
    else
      ⟨r, mem.setWord tmp (Int.ofNat (r rt)), nextPC, 0, false⟩
  else
    ⟨r, mem, nextPC, ExceptionCode.INVALID_INST, false⟩

/-- CPU.step embeds the `step` method: fetch the instruction at `pc`,
force `r[0] = 0`, run the opcode switch, then perform the delay-slot
check on `branchTarget` (dead in practice: the field is never assigned),
the PC-alignment fix-up, and the PC update.  The first component of the
result is the returned exception bitmask. -/
def CPU.step (s : CPUState) : Nat × CPUState :=
  let inst := (s.mem.getWord s.pc).1
  let mem0 := (s.mem.getWord s.pc).2
  let r0 := regWrite s.registerFile 0 0
  let cycle := s.cycle + 1
  let o := execInst r0 mem0 s.pc inst
  if o.early then
    -- syscall: this.halted = true; return SYSCALL (pc is not advanced)
    (ExceptionCode.SYSCALL,
      ⟨s.pc, o.regs, cycle, true, s.branchTarget, o.mem⟩)
  else
    match s.branchTarget with
    | some t => (o.exc, ⟨t, o.regs, cycle, s.halted, none, o.mem⟩)
    | none =>
      if o.nextPC % 4 ≠ 0 then -- nextPC & 0x3
        (o.exc ||| ExceptionCode.PC_ALIGN,
          ⟨o.nextPC + (4 - o.nextPC % 4), o.regs, cycle, s.halted, none, o.mem⟩)
      else
        (o.exc, ⟨o.nextPC, o.regs, cycle, s.halted, none, o.mem⟩)

/-!
Assembler embedding (`assembler.ts`, `assembly.constant.ts`).

The tokenizer applies nine regular expressions in a fixed order to the
start of the remaining line and consumes the first match.  Each pattern
is embedded as a character-level matcher below; JavaScript `\w`, `\s`
and `\d` are `[A-Za-z0-9_]`, whitespace and `[0-9]` (the inputs are
single source lines, so no line terminators occur).
-/

/-- lowerChar models `toLowerCase` on one character (the inputs here are
ASCII; other characters pass through unchanged). -/
def lowerChar (c : Char) : Char :=
  if 'A' ≤ c ∧ c ≤ 'Z' then Char.ofNat (c.toNat + 32) else c

/-- strToLower models the JavaScript `toLowerCase` string method. -/
def strToLower (s : String) : String := String.mk (s.data.map lowerChar)

/-- replace2 models one global `replace` call with a two-character
pattern: scan left to right, substituting each non-overlapping
occurrence. -/
def replace2 (a b r : Char) : List Char → List Char
  | x :: y :: rest =>
    if x = a ∧ y = b then r :: replace2 a b r rest
    else x :: replace2 a b r (y :: rest)
  | l => l

deriving instance DecidableEq for Except

/-- isTrimChar holds for the whitespace characters removed by the
JavaScript `trim` method (restricted to ASCII whitespace). -/
def isTrimChar (c : Char) : Bool :=
  c = ' ' || c = '\t' || c = '\n' || c = '\r' || c = '\x0b' || c = '\x0c'

/-- trimStr models the JavaScript `trim` method. -/
def trimStr (s : String) : String :=
  String.mk (((s.data.dropWhile isTrimChar).reverse.dropWhile isTrimChar).reverse)

/-- strStartsWith models the JavaScript `startsWith` method. -/
def strStartsWith (s pre : String) : Bool := pre.data.isPrefixOf s.data

/-- splitLinesAux accumulates the current line (reversed) while walking
the character list. -/
def splitLinesAux : List Char → List Char → List (List Char)
  | [], acc => [acc.reverse]
  | '\n' :: rest, acc => acc.reverse :: splitLinesAux rest []
  | c :: rest, acc => splitLinesAux rest (c :: acc)

/-- splitLines models `src.split` on a newline separator. -/
def splitLines (s : String) : List String :=
  (splitLinesAux s.data []).map String.mk

/-- natToDigitsFuel peels decimal digits; the fuel (at least the number
of digits, e.g. the number itself plus one) makes the recursion
structural so that the function reduces definitionally. -/
def natToDigitsFuel : Nat → Nat → List Char → List Char
  | 0, _, acc => acc
  | fuel + 1, n, acc =>
    if n < 10 then Char.ofNat (n + 48) :: acc
    else natToDigitsFuel fuel (n / 10) (Char.ofNat (n % 10 + 48) :: acc)

/-- natToStr renders a natural number in decimal (the behaviour of the
JavaScript template interpolation used for line numbers). -/
def natToStr (n : Nat) : String := String.mk (natToDigitsFuel (n + 1) n [])


/-- isWordChar models the regex class `\w`. -/
def isWordChar (c : Char) : Bool := c.isAlphanum || c = '_'

/-- isSpaceChar models the regex class `\s` restricted to the characters
that can occur inside one source line. -/
def isSpaceChar (c : Char) : Bool :=
  c = ' ' || c = '\t' || c = '\r' || c = '\x0b' || c = '\x0c'

/-- squote is the single-quote character. -/
def squote : Char := Char.ofNat 39

/-- matchSPECIAL models `/^\.\w+/`: a dot followed by one or more word
characters (greedy).  It returns the word part and the rest of the line.
Note that this pattern has no capture group. -/
def matchSPECIAL (l : List Char) : Option (List Char × List Char) :=
  match l with
  | '.' :: rest =>
    let p := rest.span isWordChar
    if p.1 = [] then none else some (p.1, p.2)
  | _ => none

/-- matchLABEL models `/^(\w+):/`: word characters (greedy) immediately
followed by a colon.  Returns the captured word and the rest after the
colon. -/
def matchLABEL (l : List Char) : Option (List Char × List Char) :=
  let p := l.span isWordChar
  if p.1 ≠ [] then
    match p.2 with
    | ':' :: rest => some (p.1, rest)
    | _ => none
  else none

/-- stringBody scans the inside of a string literal per
`(([^\\"]|\\.)*)"`: any escaped pair or any character other than a
backslash or quote, up to the closing quote.  Returns the raw captured
content (escapes still present) and the rest after the closing quote. -/
def stringBody : List Char → Option (List Char × List Char)
  | [] => none
  | '"' :: rest => some ([], rest)
  | '\\' :: c :: rest => (stringBody rest).map (fun q => ('\\' :: c :: q.1, q.2))
  | '\\' :: [] => none
  | c :: rest => (stringBody rest).map (fun q => (c :: q.1, q.2))

/-- matchSTRING models `/^"(([^\\"]|\\.)*)"/`. -/
def matchSTRING (l : List Char) : Option (List Char × List Char) :=
  match l with
  | '"' :: rest => stringBody rest
  | _ => none

/-- matchCOMMA models `/^\s*,\s*/`. Returns the rest of the line. -/
def matchCOMMA (l : List Char) : Option (List Char) :=
  let p := l.span isSpaceChar
  match p.2 with
  | ',' :: rest => some ((rest.span isSpaceChar).2)
  | _ => none

/-- matchSPACE models `/^\s+/`. Returns the rest of the line. -/
def matchSPACE (l : List Char) : Option (List Char) :=
  let p := l.span isSpaceChar
  if p.1 = [] then none else some p.2

/-- regAlt models the alternation `(\$\w{1,2}|zero)` with the `i` flag:
either a dollar sign followed by one or two word characters (greedy, so
two are taken when available), or the literal `zero` in any casing.
Returns the matched text and the rest. -/
def regAlt (l : List Char) : Option (List Char × List Char) :=
  match l with
  | '$' :: c1 :: rest =>
    if isWordChar c1 then
      match rest with
      | c2 :: rest2 =>
        if isWordChar c2 then some (['$', c1, c2], rest2) else some (['$', c1], rest)
      | [] => some (['$', c1], [])
    else none
  | c1 :: c2 :: c3 :: c4 :: rest =>
    if lowerChar c1 = 'z' ∧ lowerChar c2 = 'e' ∧ lowerChar c3 = 'r' ∧ lowerChar c4 = 'o' then
      some ([c1, c2, c3, c4], rest)
    else none
  | _ => none

/-- matchREGOPR models `/^(\$\w{1,2}|zero)/i`. -/
def matchREGOPR (l : List Char) : Option (List Char × List Char) := regAlt l

/-- matchCOMOPR models `/^(-?\d*)\((\$\w{1,2}|zero)\)/i`: an optional
minus sign and digits (both possibly empty), a parenthesised register.
Returns the first capture (sign and digits), the second capture (the
register text) and the rest. -/
def matchCOMOPR (l : List Char) : Option (List Char × List Char × List Char) :=
  let s := match l with
    | '-' :: r => (['-'], r)
    | _ => (([] : List Char), l)
  let p := s.2.span Char.isDigit
  match p.2 with
  | '(' :: r2 =>
    match regAlt r2 with
    | some (reg, r3) =>
      match r3 with
      | ')' :: r4 => some (s.1 ++ p.1, reg, r4)
      | _ => none
    | none => none
  | _ => none

/-- isHexChar models the class `[\da-f]` with the `i` flag. -/
def isHexChar (c : Char) : Bool :=
  c.isDigit || ('a' ≤ lowerChar c && lowerChar c ≤ 'f')

/-- decAlt is the `-?\d+` alternative of the INTEGER pattern. -/
def decAlt (l : List Char) : Option (List Char × List Char) :=
  let s := match l with
    | '-' :: r => (['-'], r)
    | _ => (([] : List Char), l)
  let p := s.2.span Char.isDigit
  if p.1 = [] then none else some (s.1 ++ p.1, p.2)

/-- charAlt is the `'([^'\\]|\\.)'` alternative of the INTEGER pattern. -/
def charAlt (l : List Char) : Option (List Char × List Char) :=
  match l with
  | q1 :: '\\' :: c :: q2 :: rest =>
    if q1 = squote ∧ q2 = squote then some ([q1, '\\', c, q2], rest) else none
  | q1 :: c :: q2 :: rest =>
    if q1 = squote ∧ q2 = squote ∧ c ≠ squote ∧ c ≠ '\\' then
      some ([q1, c, q2], rest)
    else none
  | _ => none

/-- matchINTEGER models `/^(0x[\da-f]+|-?\d+|'([^'\\]|\\.)')/i`,
trying the three alternatives in order. -/
def matchINTEGER (l : List Char) : Option (List Char × List Char) :=
  match l with
  | '0' :: x :: rest =>
    if x = 'x' ∨ x = 'X' then
      let p := rest.span isHexChar
      if p.1 = [] then match decAlt l with | some r => some r | none => charAlt l
      else some ('0' :: x :: p.1, p.2)
    else match decAlt l with | some r => some r | none => charAlt l
  | _ => match decAlt l with | some r => some r | none => charAlt l

/-- matchWORD models `/^([a-z]\w*)(?!:)/i`: a letter followed by word
characters (greedy); the negative lookahead rejects a following colon,
in which case the regex engine backtracks by one character (the shorter
match is then not followed by a colon, because word characters are not
colons). -/
def matchWORD (l : List Char) : Option (List Char × List Char) :=
  match l with
  | c :: rest =>
    if c.isAlpha then
      let p := rest.span isWordChar
      let cand := c :: p.1
      match p.2 with
      | ':' :: _ =>
        match cand.reverse with
        | lastc :: revrest =>
          if revrest = [] then none
          else some (revrest.reverse, lastc :: p.2)
        | [] => none
      | _ => some (cand, p.2)
    else none
  | [] => none

/-- Token is the tagged token record produced by `tokenize`. -/
inductive Token where
  | special (value : String)
  | label (value : String)
  | str (value : String)
  | regopr (value : String)
  | comopr (offset : Option Int) (value : String)
  | integer (value : String)
  | word (value : String)
  deriving DecidableEq

/-- handleStringEscapes embeds the chain of global `replace` calls of the
source, in the same order: `\"`, `\n`, `\t`, `\\`, `\0` (each pattern is
a backslash and one character, replaced by one character). -/
def handleStringEscapes (s : String) : String :=
  String.mk (replace2 '\\' '0' '\x00'
    (replace2 '\\' '\\' '\\'
      (replace2 '\\' 't' '\t'
        (replace2 '\\' 'n' '\n'
          (replace2 '\\' '"' '"' s.data)))))

/-- digitsToNat converts a digit string to its decimal value. -/
def digitsToNat (l : List Char) : Nat :=
  l.foldl (fun acc c => acc * 10 + (c.toNat - '0'.toNat)) 0

/-- comoprOffset embeds `parseInt(match[1] || '0', 10)` on a string that
matched `-?\d*`: the empty string is replaced by `"0"`; a lone minus sign
parses to NaN, modelled as `none`. -/
def comoprOffset (s : String) : Option Int :=
  if s = "" then some 0
  else if s = "-" then none
  else match s.data with
    | '-' :: ds => some (-(Int.ofNat (digitsToNat ds)))
    | ds => some (Int.ofNat (digitsToNat ds))

/-- tokenizeGo is the token loop of `tokenize`: try the nine patterns in
order on the remaining line, consume the first match, and record a token
(commas and whitespace are consumed silently).  The SPECIAL branch of
the source executes `match[1].toLowerCase()`, but the SPECIAL pattern
has no capture group, so `match[1]` is `undefined` and the call throws a
TypeError; that branch therefore produces an error.  An unmatched resid
is the syntax error of the source.  Every successful pattern consumes at
least one character, so the fuel bound `length + 1` is never reached. -/
def tokenizeGo : Nat → List Char → Except String (List Token)
  | _, [] => .ok []
  | 0, _ => .error "fuel exhausted (unreachable)"
  | fuel + 1, l =>
    match matchSPECIAL l with
    | some _ => .error "TypeError: cannot read toLowerCase of undefined"
    | none =>
      match matchLABEL l with
      | some (w, rest) => (tokenizeGo fuel rest).map (Token.label (String.mk w) :: ·)
      | none =>
        match matchSTRING l with
        | some (content, rest) =>
          (tokenizeGo fuel rest).map
            (Token.str (handleStringEscapes (String.mk content)) :: ·)
        | none =>
          match matchCOMMA l with
          | some rest => tokenizeGo fuel rest
          | none =>
            match matchSPACE l with
            | some rest => tokenizeGo fuel rest
            | none =>
              match matchREGOPR l with
              | some (txt, rest) =>
                (tokenizeGo fuel rest).map (Token.regopr (strToLower (String.mk txt)) :: ·)
              | none =>
                match matchCOMOPR l with
                | some (offStr, reg, rest) =>
                  (tokenizeGo fuel rest).map
                    (Token.comopr (comoprOffset (String.mk offStr))
                      (strToLower (String.mk reg)) :: ·)
                | none =>
                  match matchINTEGER l with
                  | some (txt, rest) =>
                    (tokenizeGo fuel rest).map (Token.integer (String.mk txt) :: ·)
                  | none =>
                    match matchWORD l with
                    | some (txt, rest) =>
                      (tokenizeGo fuel rest).map (Token.word (strToLower (String.mk txt)) :: ·)
                    | none => .error "Unexpected syntax"

/-- tokenize embeds the `tokenize` function of the source. -/
def tokenize (line : String) : Except String (List Token) :=
  tokenizeGo (line.length + 1) line.data

/-- REG_MAP embeds the register-name table of `assembly.constant.ts`. -/
def REG_MAP : String → Option Nat := fun name =>
  match name with
  | "zero" => some 0
  | "$zero" => some 0
  | "$at" => some 1
  | "$v0" => some 2
  | "$v1" => some 3
  | "$a0" => some 4
  | "$a1" => some 5
  | "$a2" => some 6
  | "$a3" => some 7
  | "$t0" => some 8
  | "$t1" => some 9
  | "$t2" => some 10
  | "$t3" => some 11
  | "$t4" => some 12
  | "$t5" => some 13
  | "$t6" => some 14
  | "$t7" => some 15
  | "$s0" => some 16
  | "$s1" => some 17
  | "$s2" => some 18
  | "$s3" => some 19
  | "$s4" => some 20
  | "$s5" => some 21
  | "$s6" => some 22
  | "$s7" => some 23
  | "$t8" => some 24
  | "$t9" => some 25
  | "$k0" => some 26
  | "$k1" => some 27
  | "$gp" => some 28
  | "$sp" => some 29
  | "$fp" => some 30
  | "$ra" => some 31
  | _ => none

/-- NUM_REG_MAP embeds the numeric-to-symbolic list of singleton objects
(two entries for `$0`, of which `find` only ever returns the first). -/
def NUM_REG_MAP : List (String × String) :=
  [("$0", "zero"), ("$0", "$zero"), ("$1", "$at"), ("$2", "$v0"), ("$3", "$v1"),
   ("$4", "$a0"), ("$5", "$a1"), ("$6", "$a2"), ("$7", "$a3"), ("$8", "$t0"),
   ("$9", "$t1"), ("$10", "$t2"), ("$11", "$t3"), ("$12", "$t4"), ("$13", "$t5"),
   ("$14", "$t6"), ("$15", "$t7"), ("$16", "$s0"), ("$17", "$s1"), ("$18", "$s2"),
   ("$19", "$s3"), ("$20", "$s4"), ("$21", "$s5"), ("$22", "$s6"), ("$23", "$s7"),
   ("$24", "$t8"), ("$25", "$t9"), ("$26", "$k0"), ("$27", "$k1"), ("$28", "$gp"),
   ("$29", "$sp"), ("$30", "$fp"), ("$31", "$ra")]

/-- getRegNum embeds the helper of `assembler.ts`: translate a numeric
register name through NUM_REG_MAP (falling back to the name itself),
lower-case it, and look it up in REG_MAP; an unknown name is an
invalid-register error. -/
def getRegNum (regName : String) (lineNo : Nat) : Except String Nat :=
  let translated :=
    ((NUM_REG_MAP.find? (fun p => p.1 = regName)).map Prod.snd).getD regName
  match REG_MAP (strToLower translated) with
  | some n => .ok n
  | none => .error ("L" ++ natToStr lineNo ++ ": Invalid register name " ++ regName)

/-- MipsInstructionInfo mirrors the entries of `MIPS_INSTRUCTIONS`. -/
structure MipsInstructionInfo where
  format : String
  opcode : Nat
  funct : Option Nat := none
  deriving DecidableEq

/-- MIPS_INSTRUCTIONS embeds the instruction table of
`assembly.constant.ts`. -/
def MIPS_INSTRUCTIONS : String → Option MipsInstructionInfo := fun name =>
  match name with
  | "add" => some ⟨"RRR", 0x00, some 0x20⟩
  | "addu" => some ⟨"RRR", 0x00, some 0x21⟩
  | "sub" => some ⟨"RRR", 0x00, some 0x22⟩
  | "subu" => some ⟨"RRR", 0x00, some 0x23⟩
  | "and" => some ⟨"RRR", 0x00, some 0x24⟩
  | "or" => some ⟨"RRR", 0x00, some 0x25⟩
  | "xor" => some ⟨"RRR", 0x00, some 0x26⟩
  | "nor" => some ⟨"RRR", 0x00, some 0x27⟩
  | "slt" => some ⟨"RRR", 0x00, some 0x2a⟩
  | "sltu" => some ⟨"RRR", 0x00, some 0x2b⟩
  | "sll" => some ⟨"RRA", 0x00, some 0x00⟩
  | "srl" => some ⟨"RRA", 0x00, some 0x02⟩
  | "sra" => some ⟨"RRA", 0x00, some 0x03⟩
  | "sllv" => some ⟨"RRR", 0x00, some 0x04⟩
  | "srlv" => some ⟨"RRR", 0x00, some 0x06⟩
  | "srav" => some ⟨"RRR", 0x00, some 0x07⟩
  | "jr" => some ⟨"R", 0x00, some 0x08⟩
  | "syscall" => some ⟨"N", 0x00, some 0x0c⟩
  | "addi" => some ⟨"RRI", 0x08, none⟩
  | "addiu" => some ⟨"RRI", 0x09, none⟩
  | "andi" => some ⟨"RRI", 0x0c, none⟩
  | "ori" => some ⟨"RRI", 0x0d, none⟩
  | "xori" => some ⟨"RRI", 0x0e, none⟩
  | "lui" => some ⟨"RI", 0x0f, none⟩
  | "lw" => some ⟨"RC", 0x23, none⟩
  | "sw" => some ⟨"RC", 0x2b, none⟩
  | "lb" => some ⟨"RC", 0x20, none⟩
  | "lbu" => some ⟨"RC", 0x24, none⟩
  | "lh" => some ⟨"RC", 0x21, none⟩
  | "lhu" => some ⟨"RC", 0x25, none⟩
  | "sb" => some ⟨"RC", 0x28, none⟩
  | "sh" => some ⟨"RC", 0x29, none⟩
  | "beq" => some ⟨"RRI", 0x04, none⟩
  | "bne" => some ⟨"RRI", 0x05, none⟩
  | "slti" => some ⟨"RRI", 0x0a, none⟩
  | "sltiu" => some ⟨"RRI", 0x0b, none⟩
  | "j" => some ⟨"I", 0x02, none⟩
  | "jal" => some ⟨"I", 0x03, none⟩
  | _ => none

/-- resolveBranch embeds the `BRANCH` case of pass 2 of `assemble`
(resolution of a `beq`/`bne` whose target operand was a label):
`offset = (targetAddr - (addr + 4)) >> 2`, an error when the offset is
outside the signed 16-bit range, and otherwise the encoded word
`opcode << 26 | rs << 21 | rt << 16 | (offset & 0xffff)`.  For the two
branch opcodes this word is below 2^31, so the signed 32-bit `|` chain
of the source yields exactly the natural number computed here. -/
def resolveBranch (opcode rs rt : Nat) (label : String) (addr targetAddr : Int) :
    Except String Nat :=
  let offset := sar32 (targetAddr - (addr + 4)) 2
  if offset > 32767 ∨ offset < -32768 then
    .error ("Branch to label " ++ label ++ " is out of 16-bit offset range")
  else
    .ok (opcode <<< 26 ||| rs <<< 21 ||| rt <<< 16 ||| (toUint32 offset &&& 0xffff))

/-- isError reports whether an Except value is an error. -/
def isError {ε α : Type} : Except ε α → Bool
  | .error _ => true
  | .ok _ => false

/-- assembleTokenizeLines embeds the pass-1 loop of `assemble` up to and
including tokenization: lines are trimmed; empty and `#`-comment lines
are skipped; a tokenizer exception is re-thrown with an `L<n>: ` prefix
(unless the message already carries it); lines whose token list is empty
are skipped.  Tokenization is the first thing pass 1 does with a line,
so a program whose first processed line fails to tokenize makes
`assemble` throw exactly this error. -/
def assembleTokenizeLines : Nat → List String → Except String (List (List Token))
  | _, [] => .ok []
  | i, line :: rest =>
    let l := trimStr line
    if l = "" ∨ strStartsWith l "#" then assembleTokenizeLines (i + 1) rest
    else
      match tokenize l with
      | .error e =>
        .error (if strStartsWith e ("L" ++ natToStr (i + 1)) then e
                else "L" ++ natToStr (i + 1) ++ ": " ++ e)
      | .ok toks =>
        if toks = [] then assembleTokenizeLines (i + 1) rest
        else (assembleTokenizeLines (i + 1) rest).map (toks :: ·)

/-- assembleTokenizePhase runs the tokenization part of pass 1 on a full
source text (split on newlines, as in `assemble`). -/
def assembleTokenizePhase (src : String) : Except String (List (List Token)) :=
  assembleTokenizeLines 0 (splitLines src)

/-- stepOut abbreviates the outcome of the opcode switch exactly as
`CPU.step` invokes it: registers after the entry `r[0] = 0`, memory after
the fetch, and the fetched word. -/
def stepOut (s : CPUState) : ExecOut :=
  execInst (regWrite s.registerFile 0 0) ((s.mem.getWord s.pc).2) s.pc
    ((s.mem.getWord s.pc).1)

/-- exC1 holds `bne $t0, $t1, +2` (word 0x15090002, opcode 0x05) at the
reset pc with unequal operands r8 = 0 and r9 = 1. -/
def exC1 : CPUState :=
  ⟨0x40000, fun i => if i = 8 then 0 else if i = 9 then 1 else 0, 0, false, none,
    Memory.empty.setWord 0x40000 0x15090002⟩

/-- exC2 is a memory after `set_word(0xFFFE, 0x11223344)`, a word store
whose page offset exceeds 0xFFFC. -/
def exC2 : Memory := Memory.empty.setWord 0xFFFE 0x11223344

/-- exC3 holds `addi $0, $0, 1` (word 0x20000001) at the reset pc with an
all-zero register file. -/
def exC3 : CPUState :=
  ⟨0x40000, fun _ => 0, 0, false, none, Memory.empty.setWord 0x40000 0x20000001⟩

/-- exC4 holds `beq $t0, $t1, +2` (word 0x11090002) with equal operands
r8 = r9 = 7. -/
def exC4 : CPUState :=
  ⟨0x40000, fun i => if i = 8 then 7 else if i = 9 then 7 else 0, 0, false, none,
    Memory.empty.setWord 0x40000 0x11090002⟩

/-- exC5 holds `lw $t1, 0($t0)` (word 0x8D090000) with the unaligned base
address r8 = 0x10000001. -/
def exC5 : CPUState :=
  ⟨0x40000, fun i => if i = 8 then 0x10000001 else 0, 0, false, none,
    Memory.empty.setWord 0x40000 0x8D090000⟩

/-- exC6 holds `add $t2, $t0, $t1` (word 0x01095020) with r8 = 0x7FFFFFFF
and r9 = 1, the signed-overflow scenario. -/
def exC6 : CPUState :=
  ⟨0x40000, fun i => if i = 8 then 0x7fffffff else if i = 9 then 1 else 0, 0, false, none,
    Memory.empty.setWord 0x40000 0x01095020⟩

/-- exC9 holds `lb $t1, 0($t0)` (word 0x81090000, opcode 0x20) with
r8 = 0x10000000. -/
def exC9 : CPUState :=
  ⟨0x40000, fun i => if i = 8 then 0x10000000 else 0, 0, false, none,
    Memory.empty.setWord 0x40000 0x81090000⟩

/-!
Helper lemmas: bit arithmetic of the 32-bit coercions, the sign-extended
immediate, and the projections of `CPU.step`.
-/

/-- lor_two_pow_add: a bitwise or of operands occupying disjoint bit
ranges is an addition. -/
theorem lor_two_pow_add (k : Nat) :
    ∀ a b : Nat, 2 ^ k ∣ a → b < 2 ^ k → a ||| b = a + b := by
  induction k with
  | zero =>
    intro a b _ hb
    interval_cases b
    simp
  | succ k ih =>
    intro a b ha hb
    obtain ⟨c, rfl⟩ := ha
    have hbit : Nat.bit (b.testBit 0) (b >>> 1) = b := Nat.bit_testBit_zero_shiftRight_one b
    have ha2 : 2 ^ (k + 1) * c = Nat.bit false (2 ^ k * c) := by
      simp [Nat.bit_val]
      ring
    have hdvd : 2 ^ k ∣ 2 ^ k * c := Dvd.intro _ rfl
    have hlt : b >>> 1 < 2 ^ k := by
      rw [Nat.shiftRight_one]
      rw [pow_succ] at hb
      omega
    have ht : (b.testBit 0).toNat = b % 2 := by
      rw [Nat.testBit_zero]
      rcases Nat.mod_two_eq_zero_or_one b with h | h <;> simp [h]
    have h2 : (2 : Nat) ^ (k + 1) * c = 2 * (2 ^ k * c) := by ring
    calc 2 ^ (k + 1) * c ||| b
        = Nat.bit false (2 ^ k * c) ||| Nat.bit (b.testBit 0) (b >>> 1) := by
          rw [ha2, hbit]
      _ = Nat.bit (false || b.testBit 0) (2 ^ k * c ||| b >>> 1) := Nat.lor_bit _ _ _ _
      _ = Nat.bit (b.testBit 0) (2 ^ k * c + b >>> 1) := by
          rw [Bool.false_or, ih _ _ hdvd hlt]
      _ = 2 * (2 ^ k * c + b / 2) + (b.testBit 0).toNat := by
          rw [Nat.bit_val, Nat.shiftRight_one]
      _ = 2 ^ (k + 1) * c + b := by
          rw [ht, h2]
          generalize (2 : Nat) ^ k * c = y
          omega

/-- toUint32 is bounded by 2^32. -/
theorem toUint32_lt (x : Int) : toUint32 x < 4294967296 := by
  unfold toUint32
  have h := Int.emod_nonneg x (by norm_num : (4294967296 : Int) ≠ 0)
  have h2 := Int.emod_lt_of_pos x (by norm_num : (0 : Int) < 4294967296)
  omega

/-- and_bit15_ge: a number whose bit 15 is set is at least 2^15. -/
theorem and_bit15_ge (n : Nat) (h : n &&& 32768 ≠ 0) : 32768 ≤ n := by
  have htb := Nat.and_two_pow n 15
  norm_num at htb
  rcases Bool.eq_false_or_eq_true (n.testBit 15) with hc | hc
  · rw [hc] at htb
    simp at htb
    calc 32768 = n &&& 32768 := htb.symm
      _ ≤ n := Nat.and_le_left
  · rw [hc] at htb
    simp at htb
    exact absurd htb h

/-- and_bit15_lt: a 16-bit number whose bit 15 is clear is at most
2^15 - 1. -/
theorem and_bit15_lt (n : Nat) (hle : n ≤ 65535) (h : ¬n &&& 32768 ≠ 0) : n ≤ 32767 := by
  have htb := Nat.and_two_pow n 15
  norm_num at htb
  simp at h
  rw [h] at htb
  have hb : n.testBit 15 = false := by
    rcases Bool.eq_false_or_eq_true (n.testBit 15) with hc | hc
    · rw [hc] at htb
      simp at htb
    · exact hc
  rw [Nat.testBit_to_div_mod] at hb
  simp at hb
  omega

/-- imms_eq characterises the sign-extended immediate arithmetically:
subtract 65536 exactly when bit 15 of the immediate is set. -/
theorem imms_eq (w : Nat) :
    Inst.imms w = if Inst.imm w &&& 0x8000 ≠ 0 then (Inst.imm w : Int) - 65536
                  else (Inst.imm w : Int) := by
  unfold Inst.imms
  split
  · rename_i h
    have hge := and_bit15_ge _ h
    have hle : Inst.imm w ≤ 65535 := Nat.and_le_right
    have hor : Inst.imm w ||| 0xffff0000 = 0xffff0000 + Inst.imm w := by
      rw [Nat.lor_comm]
      exact lor_two_pow_add 16 _ _ (by norm_num) (by omega)
    rw [hor]
    unfold toInt32
    norm_num
    split <;> omega
  · rfl

/-- imms_range: the sign-extended immediate lies in the signed 16-bit
range. -/
theorem imms_range (w : Nat) : -32768 ≤ Inst.imms w ∧ Inst.imms w ≤ 32767 := by
  rw [imms_eq]
  have hle : Inst.imm w ≤ 65535 := Nat.and_le_right
  split
  · rename_i h
    have hge := and_bit15_ge _ h
    omega
  · rename_i h
    have := and_bit15_lt _ hle h
    omega

/-- jsShl32_small: on the signed 16-bit range the JavaScript `<< 2`
coincides with multiplication by four. -/
theorem jsShl32_small (x : Int) (h1 : -32768 ≤ x) (h2 : x ≤ 32767) :
    jsShl32 x 2 = 4 * x := by
  have h0 : 0 ≤ x % 4294967296 := Int.emod_nonneg _ (by norm_num)
  simp only [jsShl32, toInt32, toUint32, Nat.shiftLeft_eq, Int.ofNat_eq_coe]
  push_cast
  rw [Int.toNat_of_nonneg h0]
  split <;> omega

/-- mask_bit_iff: bit 1 of the exception mask is set exactly when the
overflow condition held, whether or not `PC_ALIGN` was also raised. -/
theorem mask_bit_iff (P : Prop) [Decidable P] (m : Nat)
    (hm : m = (if P then 2 else 0) ∨ m = (if P then 2 else 0) ||| 4) :
    (m &&& 2 ≠ 0 ↔ P) := by
  rcases hm with rfl | rfl <;> by_cases h : P <;> simp [h]
  all_goals decide

/-- step_registerFile: the register file returned by `step` is the one
produced by the opcode switch, in every control path. -/
theorem step_registerFile (s : CPUState) :
    (CPU.step s).2.registerFile = (stepOut s).regs := by
  simp only [CPU.step, stepOut]
  split
  · rfl
  · split
    · rfl
    · split <;> rfl

/-- step_mem: the memory returned by `step` is the one produced by the
opcode switch, in every control path. -/
theorem step_mem (s : CPUState) : (CPU.step s).2.mem = (stepOut s).mem := by
  simp only [CPU.step, stepOut]
  split
  · rfl
  · split
    · rfl
    · split <;> rfl

/-- step_mask_of_early_false: when the syscall early return is not taken
the returned mask is the switch's exception word, possibly with
`PC_ALIGN` or-ed in. -/
theorem step_mask_of_early_false (s : CPUState) (h : (stepOut s).early = false) :
    (CPU.step s).1 = (stepOut s).exc ∨
    (CPU.step s).1 = (stepOut s).exc ||| ExceptionCode.PC_ALIGN := by
  simp only [CPU.step, stepOut] at h ⊢
  rw [h]
  simp only [Bool.false_eq_true, if_false]
  split
  · exact Or.inl rfl
  · split
    · exact Or.inr rfl
    · exact Or.inl rfl

/-- getWord_snd_chunks_ne: a fetch only ever allocates the page of the
fetched address; every other slot of the chunk array is untouched. -/
theorem getWord_snd_chunks_ne (m : Memory) (a : Int) (j : Nat) (h : j ≠ pageIndex a) :
    ((m.getWord a).2).chunks j = m.chunks j := by
  unfold Memory.getWord Memory.getChunk
  cases hc : m.chunks (pageIndex a) <;> simp [hc, h]

/-- getWord_snd_peek: a fetch never changes the value of any byte (the
page it may allocate is zeroed, and unallocated bytes already read 0). -/
theorem getWord_snd_peek (m : Memory) (a x : Int) :
    ((m.getWord a).2).peek x = m.peek x := by
  unfold Memory.getWord Memory.getChunk Memory.peek
  cases hc : m.chunks (pageIndex a)
  · by_cases hx : pageIndex x = pageIndex a
    · simp [hc, hx, Chunk.read]
    · simp [hc, hx]
  · simp [hc]

/-- regWrite_zero_id: clearing register 0 is the identity whenever
register 0 already holds 0. -/
theorem regWrite_zero_id (r : Regs) (h : r 0 = 0) : regWrite r 0 0 = r := by
  funext j
  by_cases hj : j = 0 <;> simp [regWrite, hj, toUint32]
  exact h.symm

/-- step_add_value: semantics of `add` (opcode 0, funct 32): the
destination receives the wrapped signed sum, and bit 1 of the mask is the
overflow flag. -/
theorem step_add_value (s : CPUState)
    (hop : Inst.opcode ((s.mem.getWord s.pc).1) = 0)
    (hf : Inst.funct ((s.mem.getWord s.pc).1) = 32) :
    (CPU.step s).2.registerFile (Inst.rd ((s.mem.getWord s.pc).1)) =
      toUint32 (toInt32 (Int.ofNat (regWrite s.registerFile 0 0 (Inst.rs ((s.mem.getWord s.pc).1)))) +
        toInt32 (Int.ofNat (regWrite s.registerFile 0 0 (Inst.rt ((s.mem.getWord s.pc).1))))) ∧
    ((CPU.step s).1 &&& ExceptionCode.INT_OVERFLOW ≠ 0 ↔
      (2147483647 < toInt32 (Int.ofNat (regWrite s.registerFile 0 0 (Inst.rs ((s.mem.getWord s.pc).1)))) +
        toInt32 (Int.ofNat (regWrite s.registerFile 0 0 (Inst.rt ((s.mem.getWord s.pc).1)))) ∨
       toInt32 (Int.ofNat (regWrite s.registerFile 0 0 (Inst.rs ((s.mem.getWord s.pc).1)))) +
        toInt32 (Int.ofNat (regWrite s.registerFile 0 0 (Inst.rt ((s.mem.getWord s.pc).1)))) < -2147483648)) := by
  have hregs := step_registerFile s
  have hr : (stepOut s).regs = regWrite (regWrite s.registerFile 0 0)
      (Inst.rd ((s.mem.getWord s.pc).1))
      (toInt32 (Int.ofNat (regWrite s.registerFile 0 0 (Inst.rs ((s.mem.getWord s.pc).1)))) +
        toInt32 (Int.ofNat (regWrite s.registerFile 0 0 (Inst.rt ((s.mem.getWord s.pc).1))))) := by
    simp only [stepOut, execInst, hop, hf]
    norm_num
  have hearly : (stepOut s).early = false := by
    simp only [stepOut, execInst, hop, hf]
    norm_num
  have hx : (stepOut s).exc =
      if 2147483647 < toInt32 (Int.ofNat (regWrite s.registerFile 0 0 (Inst.rs ((s.mem.getWord s.pc).1)))) +
          toInt32 (Int.ofNat (regWrite s.registerFile 0 0 (Inst.rt ((s.mem.getWord s.pc).1)))) ∨
         toInt32 (Int.ofNat (regWrite s.registerFile 0 0 (Inst.rs ((s.mem.getWord s.pc).1)))) +
          toInt32 (Int.ofNat (regWrite s.registerFile 0 0 (Inst.rt ((s.mem.getWord s.pc).1)))) < -2147483648
       then 2 else 0 := by
    simp only [stepOut, execInst, hop, hf]
    norm_num [ExceptionCode.INT_OVERFLOW]
  constructor
  · rw [hregs, hr]
    simp [regWrite]
  · have hmask := step_mask_of_early_false s hearly
    rw [hx] at hmask
    exact mask_bit_iff _ _ (by simpa [ExceptionCode.PC_ALIGN] using hmask)

/-- step_sub_value: semantics of `sub` (opcode 0, funct 34), analogous to
`add` for the signed difference. -/
theorem step_sub_value (s : CPUState)
    (hop : Inst.opcode ((s.mem.getWord s.pc).1) = 0)
    (hf : Inst.funct ((s.mem.getWord s.pc).1) = 34) :
    (CPU.step s).2.registerFile (Inst.rd ((s.mem.getWord s.pc).1)) =
      toUint32 (toInt32 (Int.ofNat (regWrite s.registerFile 0 0 (Inst.rs ((s.mem.getWord s.pc).1)))) -
        toInt32 (Int.ofNat (regWrite s.registerFile 0 0 (Inst.rt ((s.mem.getWord s.pc).1))))) ∧
    ((CPU.step s).1 &&& ExceptionCode.INT_OVERFLOW ≠ 0 ↔
      (2147483647 < toInt32 (Int.ofNat (regWrite s.registerFile 0 0 (Inst.rs ((s.mem.getWord s.pc).1)))) -
        toInt32 (Int.ofNat (regWrite s.registerFile 0 0 (Inst.rt ((s.mem.getWord s.pc).1)))) ∨
       toInt32 (Int.ofNat (regWrite s.registerFile 0 0 (Inst.rs ((s.mem.getWord s.pc).1)))) -
        toInt32 (Int.ofNat (regWrite s.registerFile 0 0 (Inst.rt ((s.mem.getWord s.pc).1)))) < -2147483648)) := by
  have hregs := step_registerFile s
  have hr : (stepOut s).regs = regWrite (regWrite s.registerFile 0 0)
      (Inst.rd ((s.mem.getWord s.pc).1))
      (toInt32 (Int.ofNat (regWrite s.registerFile 0 0 (Inst.rs ((s.mem.getWord s.pc).1)))) -
        toInt32 (Int.ofNat (regWrite s.registerFile 0 0 (Inst.rt ((s.mem.getWord s.pc).1))))) := by
    simp only [stepOut, execInst, hop, hf]
    norm_num
  have hearly : (stepOut s).early = false := by
    simp only [stepOut, execInst, hop, hf]
    norm_num
  have hx : (stepOut s).exc =
      if 2147483647 < toInt32 (Int.ofNat (regWrite s.registerFile 0 0 (Inst.rs ((s.mem.getWord s.pc).1)))) -
          toInt32 (Int.ofNat (regWrite s.registerFile 0 0 (Inst.rt ((s.mem.getWord s.pc).1)))) ∨
         toInt32 (Int.ofNat (regWrite s.registerFile 0 0 (Inst.rs ((s.mem.getWord s.pc).1)))) -
          toInt32 (Int.ofNat (regWrite s.registerFile 0 0 (Inst.rt ((s.mem.getWord s.pc).1)))) < -2147483648
       then 2 else 0 := by
    simp only [stepOut, execInst, hop, hf]
    norm_num [ExceptionCode.INT_OVERFLOW]
  constructor
  · rw [hregs, hr]
    simp [regWrite]
  · have hmask := step_mask_of_early_false s hearly
    rw [hx] at hmask
    exact mask_bit_iff _ _ (by simpa [ExceptionCode.PC_ALIGN] using hmask)

/-- step_addi_value: semantics of `addi` (opcode 8): the rt register
receives the wrapped sum of the signed rs value and the sign-extended
immediate, and bit 1 of the mask is the overflow flag. -/
theorem step_addi_value (s : CPUState)
    (hop : Inst.opcode ((s.mem.getWord s.pc).1) = 8) :
    (CPU.step s).2.registerFile (Inst.rt ((s.mem.getWord s.pc).1)) =
      toUint32 (toInt32 (Int.ofNat (regWrite s.registerFile 0 0 (Inst.rs ((s.mem.getWord s.pc).1)))) +
        Inst.imms ((s.mem.getWord s.pc).1)) ∧
    ((CPU.step s).1 &&& ExceptionCode.INT_OVERFLOW ≠ 0 ↔
      (2147483647 < toInt32 (Int.ofNat (regWrite s.registerFile 0 0 (Inst.rs ((s.mem.getWord s.pc).1)))) +
        Inst.imms ((s.mem.getWord s.pc).1) ∨
       toInt32 (Int.ofNat (regWrite s.registerFile 0 0 (Inst.rs ((s.mem.getWord s.pc).1)))) +
        Inst.imms ((s.mem.getWord s.pc).1) < -2147483648)) := by
  have hregs := step_registerFile s
  have hr : (stepOut s).regs = regWrite (regWrite s.registerFile 0 0)
      (Inst.rt ((s.mem.getWord s.pc).1))
      (toInt32 (Int.ofNat (regWrite s.registerFile 0 0 (Inst.rs ((s.mem.getWord s.pc).1)))) +
        Inst.imms ((s.mem.getWord s.pc).1)) := by
    simp only [stepOut, execInst, hop]
    norm_num
  have hearly : (stepOut s).early = false := by
    simp only [stepOut, execInst, hop]
    norm_num
  have hx : (stepOut s).exc =
      if 2147483647 < toInt32 (Int.ofNat (regWrite s.registerFile 0 0 (Inst.rs ((s.mem.getWord s.pc).1)))) +
          Inst.imms ((s.mem.getWord s.pc).1) ∨
         toInt32 (Int.ofNat (regWrite s.registerFile 0 0 (Inst.rs ((s.mem.getWord s.pc).1)))) +
          Inst.imms ((s.mem.getWord s.pc).1) < -2147483648
       then 2 else 0 := by
    simp only [stepOut, execInst, hop]
    norm_num [ExceptionCode.INT_OVERFLOW]
  constructor
  · rw [hregs, hr]
    simp [regWrite]
  · have hmask := step_mask_of_early_false s hearly
    rw [hx] at hmask
    exact mask_bit_iff _ _ (by simpa [ExceptionCode.PC_ALIGN] using hmask)

/-- pageOffset is the address modulo the chunk size. -/
theorem pageOffset_eq_mod (a : Int) : pageOffset a = toUint32 a % 65536 := by
  unfold pageOffset CHUNK_MASK CHUNK_SIZE
  have := Nat.and_pow_two_sub_one_eq_mod (toUint32 a) 16
  norm_num at this ⊢
  exact this

/-- pageIndex is the address divided by the chunk size. -/
theorem pageIndex_eq_div (a : Int) : pageIndex a = toUint32 a / 65536 := by
  unfold pageIndex CHUNK_WIDTH
  have := Nat.shiftRight_eq_div_pow (toUint32 a) 16
  norm_num at this ⊢
  exact this

/-- chunk_read_write_self: reading back an in-bounds store yields the
stored byte. -/
theorem chunk_read_write_self (c : Chunk) (i v : Nat) (h : i < CHUNK_SIZE) :
    (c.write i v).read i = v % 256 := by
  simp [Chunk.write, Chunk.read, h]

/-- chunk_read_write_ne: a store does not affect other offsets. -/
theorem chunk_read_write_ne (c : Chunk) (i j v : Nat) (h : j ≠ i) :
    (c.write i v).read j = c.read j := by
  unfold Chunk.write Chunk.read
  by_cases hic : i < CHUNK_SIZE
  · simp only [if_pos hic]
    by_cases hjc : j < CHUNK_SIZE
    · simp [hjc, h]
    · simp [hjc]
  · simp only [if_neg hic]

/-- toUint32_add_small: adding up to 3 to an address whose page offset is
at most 0xFFFC does not wrap the 32-bit value. -/
theorem toUint32_add_small (a : Int) (i : Nat) (hi : i ≤ 3)
    (h : pageOffset a ≤ 65532) : toUint32 (a + i) = toUint32 a + i := by
  rw [pageOffset_eq_mod] at h
  unfold toUint32 at h ⊢
  have h1 : 0 ≤ a % 4294967296 := Int.emod_nonneg _ (by norm_num)
  have h2 : a % 4294967296 < 4294967296 := Int.emod_lt_of_pos _ (by norm_num)
  have h3 : (a + i) % 4294967296 = (a % 4294967296 + i) % 4294967296 := by
    omega
  omega

/-- getChunk_snd_chunks_ne: `getChunk` only ever allocates the slot of
its own address. -/
theorem getChunk_snd_chunks_ne (m : Memory) (a : Int) (j : Nat) (h : j ≠ pageIndex a) :
    ((m.getChunk a).2).chunks j = m.chunks j := by
  unfold Memory.getChunk
  cases hc : m.chunks (pageIndex a) <;> simp [hc, h]

/-- setWord_chunks describes the chunk array after `setWord`: the target
page holds the four-byte update of the fetched chunk and every other slot
is unchanged. -/
theorem setWord_chunks (m : Memory) (a v : Int) :
    (m.setWord a v).chunks = fun j =>
      if j = pageIndex a then
        some (((((m.getChunk a).1.write (pageOffset a) (toUint32 v >>> 24)).write
            (pageOffset a + 1) (toUint32 v >>> 16 % 256)).write
            (pageOffset a + 2) (toUint32 v >>> 8 % 256)).write
            (pageOffset a + 3) (toUint32 v % 256))
      else m.chunks j := by
  funext j
  unfold Memory.setWord Memory.setChunkAt
  by_cases hj : j = pageIndex a
  · simp [hj]
  · simp only [if_neg hj]
    exact getChunk_snd_chunks_ne m a j hj

/-- bytes_lor_eq: the big-endian recombination of four bytes is their
positional sum. -/
theorem bytes_lor_eq (b0 b1 b2 b3 : Nat) (_h0 : b0 < 256) (h1 : b1 < 256)
    (h2 : b2 < 256) (h3 : b3 < 256) :
    b0 <<< 24 ||| b1 <<< 16 ||| b2 <<< 8 ||| b3 =
      b0 * 16777216 + b1 * 65536 + b2 * 256 + b3 := by
  have s24 : b0 <<< 24 = b0 * 16777216 := by rw [Nat.shiftLeft_eq]
  have s16 : b1 <<< 16 = b1 * 65536 := by rw [Nat.shiftLeft_eq]
  have s8 : b2 <<< 8 = b2 * 256 := by rw [Nat.shiftLeft_eq]
  rw [s24, s16, s8]
  have e1 : b0 * 16777216 ||| b1 * 65536 = b0 * 16777216 + b1 * 65536 :=
    lor_two_pow_add 24 _ _ ⟨b0, by ring_nf⟩ (by omega)
  rw [e1]
  have e2 : b0 * 16777216 + b1 * 65536 ||| b2 * 256 =
      b0 * 16777216 + b1 * 65536 + b2 * 256 :=
    lor_two_pow_add 16 _ _ ⟨b0 * 256 + b1, by ring_nf⟩ (by omega)
  rw [e2]
  exact lor_two_pow_add 8 _ _
    ⟨b0 * 65536 + b1 * 256 + b2, by ring_nf⟩ (by omega)

/-- encode_fields: the field decomposition of an encoded I-type word. -/
theorem encode_fields (opcode rs rt d : Nat) (_ho : opcode < 64) (hrs : rs < 32)
    (hrt : rt < 32) (hd : d < 65536) :
    (opcode <<< 26 ||| rs <<< 21 ||| rt <<< 16 ||| d) / 67108864 = opcode ∧
    (opcode <<< 26 ||| rs <<< 21 ||| rt <<< 16 ||| d) / 2097152 % 32 = rs ∧
    (opcode <<< 26 ||| rs <<< 21 ||| rt <<< 16 ||| d) / 65536 % 32 = rt ∧
    (opcode <<< 26 ||| rs <<< 21 ||| rt <<< 16 ||| d) % 65536 = d := by
  have s26 : opcode <<< 26 = opcode * 67108864 := by rw [Nat.shiftLeft_eq]
  have s21 : rs <<< 21 = rs * 2097152 := by rw [Nat.shiftLeft_eq]
  have s16 : rt <<< 16 = rt * 65536 := by rw [Nat.shiftLeft_eq]
  rw [s26, s21, s16]
  have e1 : opcode * 67108864 ||| rs * 2097152 = opcode * 67108864 + rs * 2097152 :=
    lor_two_pow_add 26 _ _ ⟨opcode, by ring_nf⟩ (by omega)
  rw [e1]
  have e2 : opcode * 67108864 + rs * 2097152 ||| rt * 65536 =
      opcode * 67108864 + rs * 2097152 + rt * 65536 :=
    lor_two_pow_add 21 _ _ ⟨opcode * 32 + rs, by ring_nf⟩ (by omega)
  rw [e2]
  have e3 : opcode * 67108864 + rs * 2097152 + rt * 65536 ||| d =
      opcode * 67108864 + rs * 2097152 + rt * 65536 + d :=
    lor_two_pow_add 16 _ _ ⟨opcode * 1024 + rs * 32 + rt, by ring_nf⟩ (by omega)
  rw [e3]
  refine ⟨by omega, by omega, by omega, by omega⟩

/-- span_head_false: a span whose predicate rejects the head consumes
nothing. -/
theorem span_head_false (p : Char → Bool) (c : Char) (t : List Char) (h : p c = false) :
    List.span p (c :: t) = ([], c :: t) := by
  simp [List.span_eq_take_drop, List.takeWhile_cons, List.dropWhile_cons, h]

/-!
Claim theorems.
-/

/-- C1: the spec says `bne` (opcode 0x05) branches when the operands
differ; in the code `CPU.step` has no case 5, so a `bne` word raises
INVALID_INST and execution falls through to pc + 4 regardless of the
operand values. -/
theorem bne_opcode_invalid_inst (s : CPUState) (hbt : s.branchTarget = none)
    (hop : Inst.opcode ((s.mem.getWord s.pc).1) = 5) (hpc : s.pc % 4 = 0) :
    (CPU.step s).1 &&& ExceptionCode.INVALID_INST ≠ 0 ∧ (CPU.step s).2.pc = s.pc + 4 := by
  have h4 : (s.pc + 4) % 4 = 0 := by omega
  have hd : (4 : Int) ∣ s.pc := by omega
  simp only [CPU.step, execInst, hop, hbt, h4]
  norm_num [ExceptionCode.INVALID_INST, hd]

/-- Witness for C1 at the concrete state `exC1`. -/
theorem bne_opcode_invalid_inst_witness :
    exC1.branchTarget = none ∧
    Inst.opcode ((exC1.mem.getWord exC1.pc).1) = 5 ∧ exC1.pc % 4 = 0 ∧
    ((CPU.step exC1).1 &&& ExceptionCode.INVALID_INST ≠ 0 ∧
     (CPU.step exC1).2.pc = exC1.pc + 4) :=
  ⟨rfl, by decide, by decide, bne_opcode_invalid_inst exC1 rfl (by decide) (by decide)⟩

/-- C2: a `set_word` whose page offset is at most 0xFFFC round-trips
through `get_word`, lays the four bytes out big-endian, and touches no
other chunk.  (For larger offsets the bytes past the chunk end are
dropped, see the counterexample.) -/
theorem setWord_getWord_roundtrip_in_page (m : Memory) (a v : Int)
    (h : pageOffset a ≤ 65532) :
    ((m.setWord a v).getWord a).1 = toUint32 v ∧
    (m.setWord a v).peek a = toUint32 v / 16777216 ∧
    (m.setWord a v).peek (a + 1) = toUint32 v / 65536 % 256 ∧
    (m.setWord a v).peek (a + 2) = toUint32 v / 256 % 256 ∧
    (m.setWord a v).peek (a + 3) = toUint32 v % 256 ∧
    (∀ j, j ≠ pageIndex a → (m.setWord a v).chunks j = m.chunks j) := by
  have hult : toUint32 v < 4294967296 := toUint32_lt v
  have hofflt : pageOffset a + 3 < CHUNK_SIZE := by
    unfold CHUNK_SIZE
    omega
  have hb0 : toUint32 v >>> 24 < 256 := by
    rw [Nat.shiftRight_eq_div_pow]
    omega
  have hb0m : toUint32 v >>> 24 % 256 = toUint32 v >>> 24 := Nat.mod_eq_of_lt hb0
  set C := ((((m.getChunk a).1.write (pageOffset a) (toUint32 v >>> 24)).write
      (pageOffset a + 1) (toUint32 v >>> 16 % 256)).write
      (pageOffset a + 2) (toUint32 v >>> 8 % 256)).write
      (pageOffset a + 3) (toUint32 v % 256) with hC
  have hr0 : C.read (pageOffset a) = toUint32 v >>> 24 := by
    rw [hC, chunk_read_write_ne _ _ _ _ (by omega), chunk_read_write_ne _ _ _ _ (by omega),
      chunk_read_write_ne _ _ _ _ (by omega), chunk_read_write_self _ _ _ (by omega), hb0m]
  have hr1 : C.read (pageOffset a + 1) = toUint32 v >>> 16 % 256 := by
    rw [hC, chunk_read_write_ne _ _ _ _ (by omega), chunk_read_write_ne _ _ _ _ (by omega),
      chunk_read_write_self _ _ _ (by omega)]
    omega
  have hr2 : C.read (pageOffset a + 2) = toUint32 v >>> 8 % 256 := by
    rw [hC, chunk_read_write_ne _ _ _ _ (by omega), chunk_read_write_self _ _ _ (by omega)]
    omega
  have hr3 : C.read (pageOffset a + 3) = toUint32 v % 256 := by
    rw [hC, chunk_read_write_self _ _ _ (by omega)]
    omega
  have hch := setWord_chunks m a v
  rw [← hC] at hch
  have hpo : ∀ i : Nat, i ≤ 3 → pageIndex (a + i) = pageIndex a ∧
      pageOffset (a + i) = pageOffset a + i := by
    intro i hi
    have hadd := toUint32_add_small a i hi h
    rw [pageOffset_eq_mod] at h ⊢
    rw [pageIndex_eq_div, pageIndex_eq_div, pageOffset_eq_mod, hadd]
    omega
  have hpeek : ∀ i : Nat, i ≤ 3 → (m.setWord a v).peek (a + i) = C.read (pageOffset a + i) := by
    intro i hi
    obtain ⟨hpi, hpoi⟩ := hpo i hi
    unfold Memory.peek
    rw [hch, hpi, hpoi]
    simp
  have hs24 : toUint32 v >>> 24 = toUint32 v / 16777216 := Nat.shiftRight_eq_div_pow _ 24
  have hs16 : toUint32 v >>> 16 = toUint32 v / 65536 := Nat.shiftRight_eq_div_pow _ 16
  have hs8 : toUint32 v >>> 8 = toUint32 v / 256 := Nat.shiftRight_eq_div_pow _ 8
  refine ⟨?_, ?_, ?_, ?_, ?_, ?_⟩
  · have hsome : (m.setWord a v).chunks (pageIndex a) = some C := by
      rw [hch]
      simp
    unfold Memory.getWord Memory.getChunk
    simp only [hsome]
    rw [hr0, hr1, hr2, hr3]
    rw [bytes_lor_eq _ _ _ _ hb0 (Nat.mod_lt _ (by norm_num)) (Nat.mod_lt _ (by norm_num))
      (Nat.mod_lt _ (by norm_num))]
    rw [hs24, hs16, hs8]
    omega
  · have h0 := hpeek 0 (by norm_num)
    norm_num at h0
    rw [h0, hr0, hs24]
  · have h1 := hpeek 1 (by norm_num)
    norm_num at h1
    rw [h1, hr1, hs16]
  · have h2 := hpeek 2 (by norm_num)
    norm_num at h2
    rw [h2, hr2, hs8]
  · have h3 := hpeek 3 (by norm_num)
    norm_num at h3
    rw [h3, hr3]
  · intro j hj
    rw [hch]
    simp [hj]

/-- Witness for C2: an in-page store at address 0x10000 of 0x11223344
reads back unchanged. -/
theorem setWord_getWord_roundtrip_witness :
    pageOffset (65536 : Int) ≤ 65532 ∧
    ((Memory.empty.setWord 65536 287454020).getWord 65536).1 = toUint32 287454020 :=
  ⟨by decide, (setWord_getWord_roundtrip_in_page Memory.empty 65536 287454020 (by decide)).1⟩

/-- Counterexample for C2 as stated by the spec: `set_word(0xFFFE,
0x11223344)` masks the address once, so only the bytes 0x11 and 0x22 land
(at 0xFFFE/0xFFFF); the bytes 0x33 and 0x44 are dropped — offsets 0x10000
and 0x10001 of the store's own chunk are out of bounds and the
neighbouring chunk 1 is never allocated — and a `get_word(0xFFFE)` on the
result returns 0x11220000, not the stored value. -/
theorem setWord_page_cross_counterexample :
    (exC2.getWord 0xFFFE).1 = 0x11220000 ∧
    exC2.peek 0x10000 = 0 ∧ exC2.peek 0x10001 = 0 ∧
    exC2.chunks 1 = none :=
  ⟨by decide, by decide, by decide, rfl⟩

/-- C3: register 0 is cleared at the entry of `step` (so every operand
read of the instruction sees 0), but a later write of the instruction
into r0 persists in the register file when `step` returns: here for
`addi` (opcode 8), whose destination rt receives the computed sum even
when rt = 0. -/
theorem register_zero_entry_clear_write_persists (s : CPUState)
    (hop : Inst.opcode ((s.mem.getWord s.pc).1) = 8) :
    (regWrite s.registerFile 0 0) 0 = 0 ∧
    (CPU.step s).2.registerFile (Inst.rt ((s.mem.getWord s.pc).1)) =
      toUint32 (toInt32 (Int.ofNat (regWrite s.registerFile 0 0 (Inst.rs ((s.mem.getWord s.pc).1)))) +
        Inst.imms ((s.mem.getWord s.pc).1)) :=
  ⟨by simp [regWrite, toUint32], (step_addi_value s hop).1⟩

/-- Witness for C3 at the concrete state `exC3`. -/
theorem register_zero_entry_clear_witness :
    Inst.opcode ((exC3.mem.getWord exC3.pc).1) = 8 ∧
    ((regWrite exC3.registerFile 0 0) 0 = 0 ∧
     (CPU.step exC3).2.registerFile (Inst.rt ((exC3.mem.getWord exC3.pc).1)) =
       toUint32 (toInt32 (Int.ofNat (regWrite exC3.registerFile 0 0 (Inst.rs ((exC3.mem.getWord exC3.pc).1)))) +
         Inst.imms ((exC3.mem.getWord exC3.pc).1))) :=
  ⟨by decide, register_zero_entry_clear_write_persists exC3 (by decide)⟩

/-- Counterexample for C3 as the spec words it ("register 0 always reads
as zero"): after stepping `addi $0, $0, 1` the stored register file holds
r0 = 1 until the next step clears it again. -/
theorem register_zero_after_step_counterexample :
    (CPU.step exC3).2.registerFile 0 = 1 := by decide

/-- C4: a taken `beq` (opcode 4, equal operands) sets the next pc to
pc + (imms << 2), i.e. the shifted offset is added to the address of the
branch itself, not to pc + 4. -/
theorem beq_taken_next_pc (s : CPUState) (hbt : s.branchTarget = none)
    (hop : Inst.opcode ((s.mem.getWord s.pc).1) = 4)
    (heq : regWrite s.registerFile 0 0 (Inst.rs ((s.mem.getWord s.pc).1)) =
           regWrite s.registerFile 0 0 (Inst.rt ((s.mem.getWord s.pc).1)))
    (hpc : s.pc % 4 = 0) :
    (CPU.step s).2.pc = s.pc + 4 * Inst.imms ((s.mem.getWord s.pc).1) := by
  obtain ⟨hr1, hr2⟩ := imms_range ((s.mem.getWord s.pc).1)
  have hshl := jsShl32_small _ hr1 hr2
  have h4 : (s.pc + jsShl32 (Inst.imms ((s.mem.getWord s.pc).1)) 2) % 4 = 0 := by
    rw [hshl]
    omega
  have hd : (4 : Int) ∣ s.pc := by omega
  simp only [CPU.step, execInst, hop, hbt, heq, h4]
  norm_num [hshl, hd]

/-- Witness for C4 at the concrete state `exC4`. -/
theorem beq_taken_next_pc_witness :
    exC4.branchTarget = none ∧
    Inst.opcode ((exC4.mem.getWord exC4.pc).1) = 4 ∧
    regWrite exC4.registerFile 0 0 (Inst.rs ((exC4.mem.getWord exC4.pc).1)) =
      regWrite exC4.registerFile 0 0 (Inst.rt ((exC4.mem.getWord exC4.pc).1)) ∧
    exC4.pc % 4 = 0 ∧
    (CPU.step exC4).2.pc = exC4.pc + 4 * Inst.imms ((exC4.mem.getWord exC4.pc).1) :=
  ⟨rfl, by decide, by decide, by decide,
   beq_taken_next_pc exC4 rfl (by decide) (by decide) (by decide)⟩

/-- C5: `lw`/`sw` (opcodes 35/43) with an effective address that is not a
multiple of 4 raise DATA_ALIGN and perform no access: the register file
is unchanged, no byte of memory changes value, and no chunk outside the
fetch page is allocated. -/
theorem lw_sw_unaligned_data_align (s : CPUState)
    (hr0 : s.registerFile 0 = 0)
    (hop : Inst.opcode ((s.mem.getWord s.pc).1) = 35 ∨
           Inst.opcode ((s.mem.getWord s.pc).1) = 43)
    (hea : (Int.ofNat (s.registerFile (Inst.rs ((s.mem.getWord s.pc).1))) +
              Inst.imms ((s.mem.getWord s.pc).1)) % 4 ≠ 0) :
    ((CPU.step s).1 &&& ExceptionCode.DATA_ALIGN ≠ 0) ∧
    (CPU.step s).2.registerFile = s.registerFile ∧
    (∀ x : Int, (CPU.step s).2.mem.peek x = s.mem.peek x) ∧
    (pageIndex (Int.ofNat (s.registerFile (Inst.rs ((s.mem.getWord s.pc).1))) +
         Inst.imms ((s.mem.getWord s.pc).1)) ≠ pageIndex s.pc →
      ((CPU.step s).2.mem.chunks (pageIndex (Int.ofNat (s.registerFile (Inst.rs ((s.mem.getWord s.pc).1))) +
          Inst.imms ((s.mem.getWord s.pc).1)))).isSome =
        (s.mem.chunks (pageIndex (Int.ofNat (s.registerFile (Inst.rs ((s.mem.getWord s.pc).1))) +
          Inst.imms ((s.mem.getWord s.pc).1)))).isSome) := by
  have hid := regWrite_zero_id _ hr0
  have hr : (stepOut s).regs = s.registerFile := by
    rcases hop with hop | hop <;>
      · simp only [stepOut, execInst, hop, hid]
        norm_num
        split
        · rename_i hdvd
          exact absurd hdvd (by simp only [Int.ofNat_eq_coe] at hea; omega)
        · rfl
  have hm : (stepOut s).mem = (s.mem.getWord s.pc).2 := by
    rcases hop with hop | hop <;>
      · simp only [stepOut, execInst, hop, hid]
        norm_num
        split
        · rename_i hdvd
          exact absurd hdvd (by simp only [Int.ofNat_eq_coe] at hea; omega)
        · rfl
  have hearly : (stepOut s).early = false := by
    rcases hop with hop | hop <;>
      · simp only [stepOut, execInst, hop, hid]
        norm_num
        split
        · rename_i hdvd
          exact absurd hdvd (by simp only [Int.ofNat_eq_coe] at hea; omega)
        · rfl
  have hx : (stepOut s).exc = 8 := by
    rcases hop with hop | hop <;>
      · simp only [stepOut, execInst, hop, hid]
        norm_num
        split
        · rename_i hdvd
          exact absurd hdvd (by simp only [Int.ofNat_eq_coe] at hea; omega)
        · rfl
  refine ⟨?_, ?_, ?_, ?_⟩
  · rcases step_mask_of_early_false s hearly with h | h <;> rw [h, hx] <;> decide
  · rw [step_registerFile, hr]
  · intro x
    rw [step_mem, hm, getWord_snd_peek]
  · intro hne
    rw [step_mem, hm, getWord_snd_chunks_ne]
    exact hne

/-- Witness for C5 at the concrete state `exC5`. -/
theorem lw_sw_unaligned_witness :
    exC5.registerFile 0 = 0 ∧
    Inst.opcode ((exC5.mem.getWord exC5.pc).1) = 35 ∧
    (Int.ofNat (exC5.registerFile (Inst.rs ((exC5.mem.getWord exC5.pc).1))) +
       Inst.imms ((exC5.mem.getWord exC5.pc).1)) % 4 ≠ 0 ∧
    ((CPU.step exC5).1 &&& ExceptionCode.DATA_ALIGN ≠ 0) ∧
    (CPU.step exC5).2.registerFile = exC5.registerFile :=
  ⟨by decide, by decide, by decide,
   (lw_sw_unaligned_data_align exC5 (by decide) (Or.inl (by decide)) (by decide)).1,
   (lw_sw_unaligned_data_align exC5 (by decide) (Or.inl (by decide)) (by decide)).2.1⟩

/-- C6: `add`, `sub` (opcode 0, functs 32/34) and `addi` (opcode 8)
compute the signed result, write its 32-bit wrap to the destination, and
set INT_OVERFLOW exactly when the signed result leaves
[-2^31, 2^31 - 1]. -/
theorem add_sub_addi_overflow_semantics (s : CPUState) :
    (Inst.opcode ((s.mem.getWord s.pc).1) = 0 →
     Inst.funct ((s.mem.getWord s.pc).1) = 32 →
     (CPU.step s).2.registerFile (Inst.rd ((s.mem.getWord s.pc).1)) =
       toUint32 (toInt32 (Int.ofNat (regWrite s.registerFile 0 0 (Inst.rs ((s.mem.getWord s.pc).1)))) +
         toInt32 (Int.ofNat (regWrite s.registerFile 0 0 (Inst.rt ((s.mem.getWord s.pc).1))))) ∧
     ((CPU.step s).1 &&& ExceptionCode.INT_OVERFLOW ≠ 0 ↔
       (2147483647 < toInt32 (Int.ofNat (regWrite s.registerFile 0 0 (Inst.rs ((s.mem.getWord s.pc).1)))) +
         toInt32 (Int.ofNat (regWrite s.registerFile 0 0 (Inst.rt ((s.mem.getWord s.pc).1)))) ∨
        toInt32 (Int.ofNat (regWrite s.registerFile 0 0 (Inst.rs ((s.mem.getWord s.pc).1)))) +
         toInt32 (Int.ofNat (regWrite s.registerFile 0 0 (Inst.rt ((s.mem.getWord s.pc).1)))) < -2147483648))) ∧
    (Inst.opcode ((s.mem.getWord s.pc).1) = 0 →
     Inst.funct ((s.mem.getWord s.pc).1) = 34 →
     (CPU.step s).2.registerFile (Inst.rd ((s.mem.getWord s.pc).1)) =
       toUint32 (toInt32 (Int.ofNat (regWrite s.registerFile 0 0 (Inst.rs ((s.mem.getWord s.pc).1)))) -
         toInt32 (Int.ofNat (regWrite s.registerFile 0 0 (Inst.rt ((s.mem.getWord s.pc).1))))) ∧
     ((CPU.step s).1 &&& ExceptionCode.INT_OVERFLOW ≠ 0 ↔
       (2147483647 < toInt32 (Int.ofNat (regWrite s.registerFile 0 0 (Inst.rs ((s.mem.getWord s.pc).1)))) -
         toInt32 (Int.ofNat (regWrite s.registerFile 0 0 (Inst.rt ((s.mem.getWord s.pc).1)))) ∨
        toInt32 (Int.ofNat (regWrite s.registerFile 0 0 (Inst.rs ((s.mem.getWord s.pc).1)))) -
         toInt32 (Int.ofNat (regWrite s.registerFile 0 0 (Inst.rt ((s.mem.getWord s.pc).1)))) < -2147483648))) ∧
    (Inst.opcode ((s.mem.getWord s.pc).1) = 8 →
     (CPU.step s).2.registerFile (Inst.rt ((s.mem.getWord s.pc).1)) =
       toUint32 (toInt32 (Int.ofNat (regWrite s.registerFile 0 0 (Inst.rs ((s.mem.getWord s.pc).1)))) +
         Inst.imms ((s.mem.getWord s.pc).1)) ∧
     ((CPU.step s).1 &&& ExceptionCode.INT_OVERFLOW ≠ 0 ↔
       (2147483647 < toInt32 (Int.ofNat (regWrite s.registerFile 0 0 (Inst.rs ((s.mem.getWord s.pc).1)))) +
         Inst.imms ((s.mem.getWord s.pc).1) ∨
        toInt32 (Int.ofNat (regWrite s.registerFile 0 0 (Inst.rs ((s.mem.getWord s.pc).1)))) +
         Inst.imms ((s.mem.getWord s.pc).1) < -2147483648))) :=
  ⟨fun h1 h2 => step_add_value s h1 h2,
   fun h1 h2 => step_sub_value s h1 h2,
   fun h1 => step_addi_value s h1⟩

/-- Witness for C6 at the concrete state `exC6` (an `add` that
overflows). -/
theorem add_sub_addi_overflow_witness :
    Inst.opcode ((exC6.mem.getWord exC6.pc).1) = 0 ∧
    Inst.funct ((exC6.mem.getWord exC6.pc).1) = 32 ∧
    ((CPU.step exC6).2.registerFile (Inst.rd ((exC6.mem.getWord exC6.pc).1)) =
       toUint32 (toInt32 (Int.ofNat (regWrite exC6.registerFile 0 0 (Inst.rs ((exC6.mem.getWord exC6.pc).1)))) +
         toInt32 (Int.ofNat (regWrite exC6.registerFile 0 0 (Inst.rt ((exC6.mem.getWord exC6.pc).1))))) ∧
     ((CPU.step exC6).1 &&& ExceptionCode.INT_OVERFLOW ≠ 0 ↔
       (2147483647 < toInt32 (Int.ofNat (regWrite exC6.registerFile 0 0 (Inst.rs ((exC6.mem.getWord exC6.pc).1)))) +
         toInt32 (Int.ofNat (regWrite exC6.registerFile 0 0 (Inst.rt ((exC6.mem.getWord exC6.pc).1)))) ∨
        toInt32 (Int.ofNat (regWrite exC6.registerFile 0 0 (Inst.rs ((exC6.mem.getWord exC6.pc).1)))) +
         toInt32 (Int.ofNat (regWrite exC6.registerFile 0 0 (Inst.rt ((exC6.mem.getWord exC6.pc).1)))) < -2147483648))) :=
  ⟨by decide, by decide,
   (add_sub_addi_overflow_semantics exC6).1 (by decide) (by decide)⟩

/-- C7: pass 2 of the assembler resolves a branch label operand to the
offset (target - (addr + 4)) >> 2, errors exactly when that offset leaves
the signed 16-bit range, and otherwise packs opcode/rs/rt and the 16 low
bits of the offset into the word. -/
theorem branch_label_offset_encoding (opcode rs rt : Nat) (label : String)
    (addr targetAddr : Int)
    (hop : opcode = 4 ∨ opcode = 5) (hrs : rs < 32) (hrt : rt < 32) :
    (isError (resolveBranch opcode rs rt label addr targetAddr) = true ↔
      32767 < sar32 (targetAddr - (addr + 4)) 2 ∨
        sar32 (targetAddr - (addr + 4)) 2 < -32768) ∧
    (∀ w : Nat, resolveBranch opcode rs rt label addr targetAddr = .ok w →
      w / 67108864 = opcode ∧ w / 2097152 % 32 = rs ∧ w / 65536 % 32 = rt ∧
      w % 65536 = toUint32 (sar32 (targetAddr - (addr + 4)) 2) % 65536) := by
  have ho64 : opcode < 64 := by rcases hop with h | h <;> omega
  have hdlt : toUint32 (sar32 (targetAddr - (addr + 4)) 2) &&& 65535 < 65536 := by
    have : toUint32 (sar32 (targetAddr - (addr + 4)) 2) &&& 65535 ≤ 65535 :=
      Nat.and_le_right
    omega
  have hrb : resolveBranch opcode rs rt label addr targetAddr =
      if sar32 (targetAddr - (addr + 4)) 2 > 32767 ∨
         sar32 (targetAddr - (addr + 4)) 2 < -32768 then
        Except.error ("Branch to label " ++ label ++ " is out of 16-bit offset range")
      else
        Except.ok (opcode <<< 26 ||| rs <<< 21 ||| rt <<< 16 |||
          toUint32 (sar32 (targetAddr - (addr + 4)) 2) &&& 65535) := rfl
  rw [hrb]
  split
  · rename_i hcond
    constructor
    · simp [isError]
      omega
    · intro w hw
      simp at hw
  · rename_i hcond
    constructor
    · simp [isError]
      omega
    · intro w hw
      simp only [Except.ok.injEq] at hw
      subst hw
      obtain ⟨f1, f2, f3, f4⟩ := encode_fields opcode rs rt _ ho64 hrs hrt hdlt
      refine ⟨f1, f2, f3, ?_⟩
      rw [f4]
      exact Nat.and_pow_two_sub_one_eq_mod _ 16

/-- Witness for C7: `beq $t0, $t1, loop` at address 0x40000 with the
label two instructions ahead encodes to 0x11090001. -/
theorem branch_label_offset_witness :
    ((4 : Nat) = 4 ∨ (4 : Nat) = 5) ∧ (8 : Nat) < 32 ∧ (9 : Nat) < 32 ∧
    (isError (resolveBranch 4 8 9 "loop" 262144 262152) = true ↔
      32767 < sar32 (262152 - (262144 + 4)) 2 ∨
        sar32 (262152 - (262144 + 4)) 2 < -32768) ∧
    (285802497 / 67108864 = 4 ∧ 285802497 / 2097152 % 32 = 8 ∧
     285802497 / 65536 % 32 = 9 ∧
     285802497 % 65536 = toUint32 (sar32 (262152 - (262144 + 4)) 2) % 65536) :=
  ⟨Or.inl rfl, by decide, by decide,
   (branch_label_offset_encoding 4 8 9 "loop" 262144 262152 (Or.inl rfl)
     (by decide) (by decide)).1,
   (branch_label_offset_encoding 4 8 9 "loop" 262144 262152 (Or.inl rfl)
     (by decide) (by decide)).2 285802497 (by decide)⟩

/-- C8: the spec says `$zero` is an accepted register name; the REGOPR
pattern only takes up to two word characters after the dollar, so the
tokenizer splits `$zero` into the register `$ze` and the word `ro` (which
then fails register lookup), although `REG_MAP` itself does map `$zero`
to 0 and the bare name `zero` does lex as one register token. -/
theorem dollar_zero_tokenizes_split :
    tokenize "add $zero, $t0, $t1" =
      .ok [Token.word "add", Token.regopr "$ze", Token.word "ro",
           Token.regopr "$t0", Token.regopr "$t1"] ∧
    isError (getRegNum "$ze" 1) = true ∧
    REG_MAP "$zero" = some 0 ∧
    tokenize "add zero, $t0, $t1" =
      .ok [Token.word "add", Token.regopr "zero", Token.regopr "$t0",
           Token.regopr "$t1"] :=
  ⟨by decide, by decide, by decide, by decide⟩

/-- C9: the instruction table advertises `lb`, `lh`, `lbu`, `lhu`, `sb`
and `sh`, but `CPU.step` has no case for any of their opcodes
(0x20/0x21/0x24/0x25/0x28/0x29): each raises INVALID_INST and leaves the
registers and every byte of memory unchanged. -/
theorem byte_half_mem_ops_invalid_inst (s : CPUState)
    (hr0 : s.registerFile 0 = 0)
    (hop : Inst.opcode ((s.mem.getWord s.pc).1) = 0x20 ∨
           Inst.opcode ((s.mem.getWord s.pc).1) = 0x21 ∨
           Inst.opcode ((s.mem.getWord s.pc).1) = 0x24 ∨
           Inst.opcode ((s.mem.getWord s.pc).1) = 0x25 ∨
           Inst.opcode ((s.mem.getWord s.pc).1) = 0x28 ∨
           Inst.opcode ((s.mem.getWord s.pc).1) = 0x29) :
    (MIPS_INSTRUCTIONS "lb" = some ⟨"RC", 0x20, none⟩ ∧
     MIPS_INSTRUCTIONS "lh" = some ⟨"RC", 0x21, none⟩ ∧
     MIPS_INSTRUCTIONS "lbu" = some ⟨"RC", 0x24, none⟩ ∧
     MIPS_INSTRUCTIONS "lhu" = some ⟨"RC", 0x25, none⟩ ∧
     MIPS_INSTRUCTIONS "sb" = some ⟨"RC", 0x28, none⟩ ∧
     MIPS_INSTRUCTIONS "sh" = some ⟨"RC", 0x29, none⟩ ∧
     MIPS_INSTRUCTIONS "lw" = some ⟨"RC", 0x23, none⟩ ∧
     MIPS_INSTRUCTIONS "sw" = some ⟨"RC", 0x2b, none⟩) ∧
    ((CPU.step s).1 &&& ExceptionCode.INVALID_INST ≠ 0) ∧
    (CPU.step s).2.registerFile = s.registerFile ∧
    (∀ x : Int, (CPU.step s).2.mem.peek x = s.mem.peek x) := by
  have hid := regWrite_zero_id _ hr0
  have hkey : (stepOut s).regs = s.registerFile ∧ (stepOut s).mem = (s.mem.getWord s.pc).2 ∧
      (stepOut s).early = false ∧ (stepOut s).exc = 1 := by
    rcases hop with h | h | h | h | h | h <;>
      · refine ⟨?_, ?_, ?_, ?_⟩ <;>
          · simp only [stepOut, execInst, h, hid]
            norm_num [ExceptionCode.INVALID_INST]
  obtain ⟨hr, hm, hearly, hx⟩ := hkey
  refine ⟨by refine ⟨?_, ?_, ?_, ?_, ?_, ?_, ?_, ?_⟩ <;> decide, ?_, ?_, ?_⟩
  · rcases step_mask_of_early_false s hearly with h | h <;> rw [h, hx] <;> decide
  · rw [step_registerFile, hr]
  · intro x
    rw [step_mem, hm, getWord_snd_peek]

/-- Witness for C9 at the concrete state `exC9` (an `lb`). -/
theorem byte_half_invalid_witness :
    exC9.registerFile 0 = 0 ∧
    Inst.opcode ((exC9.mem.getWord exC9.pc).1) = 0x20 ∧
    ((CPU.step exC9).1 &&& ExceptionCode.INVALID_INST ≠ 0) ∧
    (CPU.step exC9).2.registerFile = exC9.registerFile :=
  ⟨by decide, by decide,
   (byte_half_mem_ops_invalid_inst exC9 (by decide) (Or.inl (by decide))).2.1,
   (byte_half_mem_ops_invalid_inst exC9 (by decide) (Or.inl (by decide))).2.2.1⟩

/-- C10: any line the SPECIAL pattern matches (a directive such as
`.data` or `.byte`) makes `tokenize` fail: the pattern has no capture
group, so the code dereferences an undefined capture and throws a
TypeError before any directive is processed. -/
theorem directive_line_tokenize_error (s : String)
    (h : ∃ p, matchSPECIAL s.data = some p) :
    tokenize s = .error "TypeError: cannot read toLowerCase of undefined" := by
  obtain ⟨p, hp⟩ := h
  unfold tokenize
  rcases hd : s.data with _ | ⟨c, t⟩
  · rw [hd] at hp
    simp [matchSPECIAL] at hp
  · have hlen : s.length = t.length + 1 := by
      simp [String.length, hd]
    rw [hd] at hp
    rw [hlen]
    simp only [tokenizeGo, hp]

/-- Witness for C10 at the concrete line `.data`. -/
theorem directive_tokenize_witness :
    matchSPECIAL (".data" : String).data =
      some (['d', 'a', 't', 'a'], []) ∧
    tokenize ".data" = .error "TypeError: cannot read toLowerCase of undefined" :=
  ⟨by decide,
   directive_line_tokenize_error ".data" ⟨(['d', 'a', 't', 'a'], []), by decide⟩⟩

/-- Counterexample for C10 as the spec words it (a RangeError from a
negative data-array size): assembling a source whose first line is
`.data` never reaches the word-array allocation — pass 1 already reports
the tokenizer TypeError with the line number prefixed. -/
theorem directive_assemble_counterexample :
    assembleTokenizePhase ".data\n.byte 1" =
      .error "L1: TypeError: cannot read toLowerCase of undefined" := by decide
